import Mathlib

/-!
Verification of the thalassa JSON-RPC bridge core (src/agent/client.rs,
src/agent/bridge.rs, src/agent/acp.rs, src/bus.rs, src/entity.rs,
src/chat.rs) against its natural-language specification.

The embedding is shallow: each Rust data type and each pure decision made
by the reader task, the request sender, the notification listener, the bus
listener and the prompt-turn task is translated into a Lean definition.
Concurrency is modelled by making the interleaving explicit: the reader
processes a list of input lines, and the mixed client machine processes a
list of actions (send-request or input-line).
-/

set_option autoImplicit false

namespace Thalassa

/-- JSON values as manipulated through serde_json::Value in the source.
Numbers are modelled as integers: every id and every numeric field the
bridge core touches is integral. -/
inductive Json where
  | null
  | bool (b : Bool)
  | num (n : Int)
  | str (s : String)
  | arr (elems : List Json)
  | obj (fields : List (String × Json))

/-- Mirrors Value::get(key) from serde_json: field lookup on an object,
None on any other value. Object keys are assumed distinct (serde_json
maps), so first-match lookup is the map lookup. -/
def Json.getField (j : Json) (k : String) : Option Json :=
  match j with
  | .obj fields => fields.lookup k
  | _ => none

/-- Mirrors Value::as_str. -/
def Json.asStr (j : Json) : Option String :=
  match j with
  | .str s => some s
  | _ => none

/-- Two-character lowercase hex rendering of a byte-sized value, as used by
serde_json in \u00XX escapes for control characters. -/
def hexDigit (n : Nat) : String :=
  if n = 0 then "0" else if n = 1 then "1" else if n = 2 then "2"
  else if n = 3 then "3" else if n = 4 then "4" else if n = 5 then "5"
  else if n = 6 then "6" else if n = 7 then "7" else if n = 8 then "8"
  else if n = 9 then "9" else if n = 10 then "a" else if n = 11 then "b"
  else if n = 12 then "c" else if n = 13 then "d" else if n = 14 then "e"
  else "f"

/-- Mirrors serde_json string escaping for one character: quote and
backslash are escaped, the named control escapes are used for backspace,
form feed, newline, carriage return and tab, other control characters get
a \u00XX escape, everything else is emitted verbatim. -/
def escapeChar (c : Char) : String :=
  if c = '"' then "\\\""
  else if c = '\\' then "\\\\"
  else if c = Char.ofNat 8 then "\\b"
  else if c = Char.ofNat 12 then "\\f"
  else if c = '\n' then "\\n"
  else if c = '\r' then "\\r"
  else if c = '\t' then "\\t"
  else if c.toNat < 32 then "\\u00" ++ hexDigit (c.toNat / 16) ++ hexDigit (c.toNat % 16)
  else String.singleton c

/-- Escape a whole string, serde_json style. -/
def escapeString (s : String) : String :=
  s.toList.foldl (fun acc c => acc ++ escapeChar c) ""

mutual

/-- Compact JSON rendering, mirroring serde_json Value::to_string, which
the reader uses to normalize a response id (client.rs line 73). -/
def Json.render : Json → String
  | .null => "null"
  | .bool b => if b then "true" else "false"
  | .num n => toString n
  | .str s => "\"" ++ escapeString s ++ "\""
  | .arr elems => "[" ++ Json.renderElems elems ++ "]"
  | .obj fields => "\x7b" ++ Json.renderFields fields ++ "\x7d"

/-- Comma-separated rendering of array elements. -/
def Json.renderElems : List Json → String
  | [] => ""
  | [j] => Json.render j
  | j :: rest => Json.render j ++ "," ++ Json.renderElems rest

/-- Comma-separated rendering of object fields. -/
def Json.renderFields : List (String × Json) → String
  | [] => ""
  | [(k, v)] => "\"" ++ escapeString k ++ "\":" ++ Json.render v
  | (k, v) :: rest =>
      "\"" ++ escapeString k ++ "\":" ++ Json.render v ++ "," ++ Json.renderFields rest

end

/-- Mirrors str::trim_matches(c): repeatedly removes the character from
both ends of the string. -/
def trimMatches (c : Char) (s : String) : String :=
  String.mk (((s.toList.dropWhile (fun x => x = c)).reverse.dropWhile (fun x => x = c)).reverse)

/-- Normalized call id, exactly as the reader computes it (client.rs lines
73-75): response.id.to_string() followed by trim_matches of the double
quote. -/
def idClean (j : Json) : String :=
  trimMatches '"' j.render

/-- JsonRpcError from acp.rs. -/
structure JsonRpcError where
  code : Int
  message : String
  data : Option Json

/-- JsonRpcRequest from acp.rs: also the shape of inbound notifications
and agent-originated calls. id is None for notifications. -/
structure JsonRpcRequest where
  jsonrpc : String
  method : String
  params : Option Json
  id : Option Json

/-- JsonRpcRequest::new from acp.rs: jsonrpc "2.0", optional numeric id. -/
def JsonRpcRequest.new (method : String) (params : Option Json) (id : Option Nat) : JsonRpcRequest :=
  ⟨"2.0", method, params, id.map (fun i => Json.num (Int.ofNat i))⟩

/-- JsonRpcResponse from acp.rs: id is a required Value, result and error
are optional. -/
structure JsonRpcResponse where
  jsonrpc : String
  id : Json
  result : Option Json
  error : Option JsonRpcError

/-- Reading of an optional field under serde derive: a missing field and
an explicit null both give None. -/
def optField (j : Json) (k : String) : Option Json :=
  match j.getField k with
  | some .null => none
  | some v => some v
  | none => none

/-- Deserialization of JsonRpcError under serde derive: code must be a
number, message a string, data optional; unknown fields are ignored. -/
def parseError (j : Json) : Option JsonRpcError :=
  match j.getField "code", j.getField "message" with
  | some (.num c), some (.str m) => some ⟨c, m, optField j "data"⟩
  | _, _ => none

/-- Deserialization of JsonRpcResponse under serde derive, as attempted
first by the reader on every non-blank line (client.rs line 71): jsonrpc
must be a string, id must be present (any Value, including null), result
is optional, error is optional but must deserialize as JsonRpcError when
present; unknown fields (such as method) are ignored. -/
def parseResponse (j : Json) : Option JsonRpcResponse :=
  match j.getField "jsonrpc", j.getField "id" with
  | some (.str v), some idv =>
      match j.getField "error" with
      | none => some ⟨v, idv, optField j "result", none⟩
      | some .null => some ⟨v, idv, optField j "result", none⟩
      | some ev =>
          match parseError ev with
          | some e => some ⟨v, idv, optField j "result", some e⟩
          | none => none
  | _, _ => none

/-- Deserialization of JsonRpcRequest under serde derive, attempted by the
reader when the Response shape fails (client.rs line 87): jsonrpc and
method must be strings, params and id are optional. -/
def parseRequest (j : Json) : Option JsonRpcRequest :=
  match j.getField "jsonrpc", j.getField "method" with
  | some (.str v), some (.str m) => some ⟨v, m, optField j "params", optField j "id"⟩
  | _, _ => none

/-- One line read from the child's stdout, classified the way
serde_json::from_str deterministically classifies the raw text: a line
whose trim is empty, a non-blank line that is not valid JSON at all (both
shape parses fail at the syntax stage), a non-blank line carrying a JSON
value, or an I/O error from the underlying read. -/
inductive Line where
  | blank
  | notJson (s : String)
  | json (j : Json)
  | readError

/-- Pending-call table: normalized id string to completion-handle token.
Models HashMap<String, oneshot::Sender<JsonRpcResponse>>, with handles
named by allocation order. -/
abbrev Pending := List (String × Nat)

/-- HashMap::remove by key: returns the removed handle and the remaining
table, or none if the key is absent. On a table with distinct keys this is
exactly map removal. -/
def lookupRemove (k : String) : Pending → Option (Nat × Pending)
  | [] => none
  | (k', h) :: rest =>
      if k' = k then some (h, rest)
      else
        match lookupRemove k rest with
        | some (h', rest') => some (h', (k', h) :: rest')
        | none => none

/-- HashMap::insert: any existing binding of the key is replaced. -/
def insertPending (k : String) (h : Nat) (p : Pending) : Pending :=
  p.filter (fun e => e.1 ≠ k) ++ [(k, h)]

/-- State of one AcpClient connection: the id counter (request_id_counter,
starts at 1), the next fresh completion-handle token, the ghost list of
ids handed out by send_request in order, the pending table, the writer
queue, and the observable effects of the reader: responses delivered to
completion handles, requests pushed onto the notification broadcast
channel, unmatched responses that were warned about and dropped, a count
of unparsable lines that were logged and dropped, and whether the reader
loop is still running. -/
structure ConnState where
  counter : Nat
  nextHandle : Nat
  issued : List Nat
  pending : Pending
  queued : List JsonRpcRequest
  delivered : List (Nat × JsonRpcResponse)
  notifications : List JsonRpcRequest
  unmatched : List JsonRpcResponse
  badLines : Nat
  readerAlive : Bool

/-- Connection state right after AcpClient::new: empty pending table,
request_id_counter = 1, reader running. -/
def initState : ConnState :=
  { counter := 1, nextHandle := 0, issued := [], pending := [], queued := []
  , delivered := [], notifications := [], unmatched := [], badLines := 0
  , readerAlive := true }

/-- One iteration of the reader loop (client.rs lines 62-99): skip blank
lines; on a JSON line, try the Response shape first and deliver to (and
remove) the matching pending entry, else record the unmatched response;
otherwise try the Request shape and push onto the notification channel;
a line matching neither shape, or a non-JSON line, is logged and dropped;
a read error breaks the loop. -/
def processLine (st : ConnState) (l : Line) : ConnState :=
  match l with
  | .blank => st
  | .notJson _ => { st with badLines := st.badLines + 1 }
  | .json j =>
      match parseResponse j with
      | some response =>
          match lookupRemove (idClean response.id) st.pending with
          | some (h, rest) =>
              { st with pending := rest, delivered := st.delivered ++ [(h, response)] }
          | none => { st with unmatched := st.unmatched ++ [response] }
      | none =>
          match parseRequest j with
          | some request => { st with notifications := st.notifications ++ [request] }
          | none => { st with badLines := st.badLines + 1 }
  | .readError => { st with readerAlive := false }

/-- The reader task run over its whole input stream: the list ends when
the child's output stream closes (child exited), and nothing further
happens to the state at that point — in particular the pending table is
left exactly as the last line left it. -/
def runReader (st : ConnState) : List Line → ConnState
  | [] => st
  | l :: rest =>
      let st' := processLine st l
      if st'.readerAlive then runReader st' rest else st'

/-- AcpClient::send_request (client.rs lines 113-140), up to its await:
take the next id from the counter and increment it, build the request,
insert a fresh completion handle under id.to_string() in the pending
table, and enqueue the request on the writer queue. -/
def sendStep (st : ConnState) (method : String) (params : Option Json) : ConnState :=
  { st with
    counter := st.counter + 1
  , issued := st.issued ++ [st.counter]
  , nextHandle := st.nextHandle + 1
  , pending := insertPending (toString st.counter) st.nextHandle st.pending
  , queued := st.queued ++ [JsonRpcRequest.new method params (some st.counter)] }

/-- An interleaving step of the connection: either some task calls
send_request, or the reader consumes one line (ignored once the reader
loop has ended). -/
inductive Act where
  | send (method : String) (params : Option Json)
  | line (l : Line)

/-- Effect of one action on the connection state. -/
def step (st : ConnState) (a : Act) : ConnState :=
  match a with
  | .send m p => sendStep st m p
  | .line l => if st.readerAlive then processLine st l else st

/-- A whole interleaved execution of the connection. -/
def run (st : ConnState) (acts : List Act) : ConnState :=
  acts.foldl step st

/-- True exactly on the read-error line; used to state that a stream
carries no I/O error. -/
def Line.isReadError : Line → Bool
  | .readError => true
  | _ => false

/-- Role from entity.rs. -/
inductive Role where
  | system
  | user
  | agent
deriving DecidableEq

/-- EntityId from entity.rs. -/
structure EntityId where
  id : String
  name : String
  role : Role
deriving DecidableEq

/-- NotificationLevel from bus.rs. -/
inductive NotificationLevel where
  | info
  | warning
  | error
  | success
deriving DecidableEq

/-- Turn metadata: HashMap<String, String> from chat.rs, with the map's
distinct keys modelled by first-match lookup. -/
abbrev Metadata := List (String × String)

/-- ChatMessage from chat.rs. Timestamps are opaque to the bridge core and
modelled as naturals. -/
structure ChatMessage where
  id : String
  chatId : Option String
  sender : EntityId
  content : String
  timestamp : Nat
  metadata : Metadata
deriving DecidableEq

/-- Event from bus.rs. -/
inductive Event where
  | chatMessage (msg : ChatMessage)
  | systemNotice (level : NotificationLevel) (message : String) (target : Option EntityId)
  | scheduledEvent (jobId : String) (payload : String)
  | configChanged
deriving DecidableEq

/-- Chunk-text extraction performed by the notification listener
(bridge.rs lines 103-133): the listener appends to the accumulator exactly
when the method is session/update, params.update.sessionUpdate is the
string agent_message_chunk, and params.update.content.text is a string;
this function returns that text in exactly those cases. -/
def extractChunkText (n : JsonRpcRequest) : Option String :=
  if n.method = "session/update" then
    match n.params with
    | some params =>
        match params.getField "update" with
        | some update =>
            match update.getField "sessionUpdate" with
            | some su =>
                if su.asStr = some "agent_message_chunk" then
                  match update.getField "content" with
                  | some content => (content.getField "text").bind Json.asStr
                  | none => none
                else none
            | none => none
        | none => none
    | none => none
  else none

/-- Effect of one received notification on the turn accumulator: push_str
of the extracted chunk text when there is one, otherwise unchanged. -/
def handleNotice (acc : String) (n : JsonRpcRequest) : String :=
  match extractChunkText n with
  | some text => acc ++ text
  | none => acc

/-- The notification-consumption loop over the received notifications, in
arrival order. -/
def runNotices (acc : String) (ns : List JsonRpcRequest) : String :=
  ns.foldl handleNotice acc

/-- Mirrors str::trim_start_matches('\n') from bridge.rs line 201: every
leading newline is removed. -/
def trimStartNewlines (s : String) : String :=
  String.mk (s.toList.dropWhile (fun c => c = '\n'))

/-- What a prompt turn observably produces: the events it publishes on the
bus, in order, and the session/prompt call it issues, if any, as
(sessionId, prompt text). -/
structure TurnOutcome where
  events : List Event
  callIssued : Option (String × String)
deriving DecidableEq

/-- The prompt-turn task spawned per user message (bridge.rs lines
163-243), as a function of its inputs: the agent identity, the fresh uuid
and timestamp of the eventual reply, the user message's content and
metadata, the protocol-level session id (None until session/new
succeeded), the outcome of the session/prompt call (only consulted when a
call is issued), and the accumulator content read after the call returns.
If the session id is absent it publishes one error notification and makes
no call; on call failure it publishes one error notification; on success
with an empty accumulator it publishes nothing; otherwise it publishes one
chat message whose content is the accumulated text with all leading
newlines stripped, prefixed by the metadata's project_name (default
"unknown") in square brackets and a newline, carrying the original
metadata. -/
def promptTurn (agentId : EntityId) (freshId : String) (now : Nat)
    (content : String) (metadata : Metadata)
    (acpSessionId : Option String)
    (callResult : Except String JsonRpcResponse)
    (accumulated : String) : TurnOutcome :=
  match acpSessionId with
  | none =>
      ⟨[Event.systemNotice NotificationLevel.error "Agent session not ready" none], none⟩
  | some sid =>
      match callResult with
      | .error e =>
          ⟨[Event.systemNotice NotificationLevel.error ("Agent failed to reply: " ++ e) none]
          , some (sid, content)⟩
      | .ok _ =>
          if accumulated.isEmpty then
            ⟨[], some (sid, content)⟩
          else
            let projectName := (metadata.lookup "project_name").getD "unknown"
            let trimmed := trimStartNewlines accumulated
            let reply : ChatMessage :=
              { id := freshId, chatId := none, sender := agentId
              , content := "[" ++ projectName ++ "]" ++ "\n" ++ trimmed
              , timestamp := now, metadata := metadata }
            ⟨[Event.chatMessage reply], some (sid, content)⟩

/-- Modelled from the spec claim's words (claim C4 and §8 property 5 of
the spec): the published reply content equals "[" + project name + "]" +
a single newline + the accumulated text with a single leading newline
stripped if one is present. Stated for comparison with the reply content
the source actually builds. -/
def specClaimReplyContent (projectName accumulated : String) : String :=
  let stripped :=
    match accumulated.toList with
    | '\n' :: rest => String.mk rest
    | _ => accumulated
  "[" ++ projectName ++ "]" ++ "\n" ++ stripped

/-- What the bus-consumption loop does with one bus event (bridge.rs lines
143-247): on a chat message whose sender role is User, when the ACP client
handle is present (it is stored before this loop is spawned), spawn a
prompt-turn task carrying the message's content and metadata; every other
event, and every chat message from a System or Agent sender, spawns
nothing. -/
def busStep (clientAvailable : Bool) (ev : Event) : Option (String × Metadata) :=
  match ev with
  | .chatMessage msg =>
      if msg.sender.role = Role.user then
        if clientAvailable then some (msg.content, msg.metadata) else none
      else none
  | _ => none

/-- The Pending-Call Table invariant that at most one completion handle is
registered per normalized id: the keys are distinct. -/
abbrev keysNodup (p : Pending) : Prop :=
  (p.map Prod.fst).Nodup

/-- Distinctness of the completion-handle tokens of a table. -/
abbrev handlesNodup (p : Pending) : Prop :=
  (p.map Prod.snd).Nodup

/-- The params.update payload of a notification, when present. -/
def updatePayload (n : JsonRpcRequest) : Option Json :=
  n.params.bind (fun p => p.getField "update")

/-- The params.update.sessionUpdate string of a notification, when
present. -/
def updateKind (n : JsonRpcRequest) : Option String :=
  (updatePayload n).bind (fun u => (u.getField "sessionUpdate").bind Json.asStr)

/-- The params.update.content.text string of a notification, when
present. -/
def contentText (n : JsonRpcRequest) : Option String :=
  (updatePayload n).bind (fun u =>
    (u.getField "content").bind (fun c => (c.getField "text").bind Json.asStr))

/-- Connection invariant: the counter is one past the number of issued
ids, the issued ids are exactly 1, 2, ..., in order, and the pending table
has at most one handle per id. -/
def ConnInv (st : ConnState) : Prop :=
  st.counter = st.issued.length + 1
  ∧ st.issued = List.range' 1 st.issued.length
  ∧ keysNodup st.pending

/-!
Helper lemmas about the pending-call table and the reader, shared by the
claim theorems below.
-/

/-- Removal produces a sublist of the table. -/
theorem lookupRemove_sublist (k : String) :
    ∀ (p rest : Pending) (h : Nat), lookupRemove k p = some (h, rest) → rest.Sublist p := by
  intro p
  induction p with
  | nil => intro rest h heq; simp [lookupRemove] at heq
  | cons e tl ih =>
      intro rest h heq
      obtain ⟨k', h'⟩ := e
      by_cases hk : k' = k
      · rw [lookupRemove, if_pos hk] at heq
        obtain ⟨rfl, rfl⟩ : h' = h ∧ tl = rest := by
          constructor <;> [exact congrArg Prod.fst (Option.some.inj heq);
            exact congrArg Prod.snd (Option.some.inj heq)]
        exact List.sublist_cons_self _ _
      · rw [lookupRemove, if_neg hk] at heq
        cases hrec : lookupRemove k tl with
        | none => rw [hrec] at heq; cases heq
        | some pr =>
            obtain ⟨h'', rest'⟩ := pr
            rw [hrec] at heq
            obtain ⟨rfl, rfl⟩ : h'' = h ∧ (k', h') :: rest' = rest := by
              constructor <;> [exact congrArg Prod.fst (Option.some.inj heq);
                exact congrArg Prod.snd (Option.some.inj heq)]
            exact (ih _ _ hrec).cons₂ _

/-- The removed pair was a member of the table. -/
theorem lookupRemove_mem (k : String) :
    ∀ (p rest : Pending) (h : Nat), lookupRemove k p = some (h, rest) → (k, h) ∈ p := by
  intro p
  induction p with
  | nil => intro rest h heq; simp [lookupRemove] at heq
  | cons e tl ih =>
      intro rest h heq
      obtain ⟨k', h'⟩ := e
      by_cases hk : k' = k
      · rw [lookupRemove, if_pos hk] at heq
        have hh : h' = h := congrArg Prod.fst (Option.some.inj heq)
        subst hk; subst hh
        exact List.mem_cons_self _ _
      · rw [lookupRemove, if_neg hk] at heq
        cases hrec : lookupRemove k tl with
        | none => rw [hrec] at heq; cases heq
        | some pr =>
            obtain ⟨h'', rest'⟩ := pr
            rw [hrec] at heq
            have hh : h'' = h := congrArg Prod.fst (Option.some.inj heq)
            subst hh
            exact List.mem_cons_of_mem _ (ih _ _ hrec)

/-- Failed removal means the key is not in the table. -/
theorem lookupRemove_none (k : String) :
    ∀ (p : Pending), lookupRemove k p = none → ∀ h, (k, h) ∉ p := by
  intro p
  induction p with
  | nil => intro _ h hmem; cases hmem
  | cons e tl ih =>
      intro heq h hmem
      obtain ⟨k', h'⟩ := e
      by_cases hk : k' = k
      · rw [lookupRemove, if_pos hk] at heq; cases heq
      · rw [lookupRemove, if_neg hk] at heq
        cases hrec : lookupRemove k tl with
        | none =>
            rcases List.mem_cons.mp hmem with hhd | htl
            · exact hk (congrArg Prod.fst hhd).symm
            · exact ih hrec h htl
        | some pr => rw [hrec] at heq; cases heq

/-- Entries with a different key survive a removal. -/
theorem lookupRemove_keeps (k : String) :
    ∀ (p rest : Pending) (h : Nat), lookupRemove k p = some (h, rest) →
      ∀ k₂ h₂, (k₂, h₂) ∈ p → k₂ ≠ k → (k₂, h₂) ∈ rest := by
  intro p
  induction p with
  | nil => intro rest h heq; simp [lookupRemove] at heq
  | cons e tl ih =>
      intro rest h heq k₂ h₂ hmem hne
      obtain ⟨k', h'⟩ := e
      by_cases hk : k' = k
      · rw [lookupRemove, if_pos hk] at heq
        have hrest : tl = rest := congrArg Prod.snd (Option.some.inj heq)
        subst hrest
        rcases List.mem_cons.mp hmem with hhd | htl
        · exact absurd (hk ▸ congrArg Prod.fst hhd : k₂ = k) hne
        · exact htl
      · rw [lookupRemove, if_neg hk] at heq
        cases hrec : lookupRemove k tl with
        | none => rw [hrec] at heq; cases heq
        | some pr =>
            obtain ⟨h'', rest'⟩ := pr
            rw [hrec] at heq
            have hrest : (k', h') :: rest' = rest := congrArg Prod.snd (Option.some.inj heq)
            subst hrest
            rcases List.mem_cons.mp hmem with hhd | htl
            · exact hhd ▸ List.mem_cons_self _ _
            · exact List.mem_cons_of_mem _ (ih _ _ hrec k₂ h₂ htl hne)

/-- In a table with distinct keys a key determines its handle. -/
theorem key_unique :
    ∀ (p : Pending), keysNodup p → ∀ k h₁ h₂, (k, h₁) ∈ p → (k, h₂) ∈ p → h₁ = h₂ := by
  intro p
  induction p with
  | nil => intro _ k h₁ h₂ hm; cases hm
  | cons e tl ih =>
      intro hnd k h₁ h₂ hm₁ hm₂
      obtain ⟨k', h'⟩ := e
      have hnd' := hnd
      simp only [keysNodup, handlesNodup, List.map_cons, List.nodup_cons] at hnd'
      rcases List.mem_cons.mp hm₁ with hh₁ | ht₁
      · rcases List.mem_cons.mp hm₂ with hh₂ | ht₂
        · rw [Prod.mk.injEq] at hh₁ hh₂
          exact hh₁.2.trans hh₂.2.symm
        · rw [Prod.mk.injEq] at hh₁
          exact absurd (hh₁.1 ▸ List.mem_map_of_mem Prod.fst ht₂ :
            k' ∈ tl.map Prod.fst) hnd'.1
      · rcases List.mem_cons.mp hm₂ with hh₂ | ht₂
        · rw [Prod.mk.injEq] at hh₂
          exact absurd (hh₂.1 ▸ List.mem_map_of_mem Prod.fst ht₁ :
            k' ∈ tl.map Prod.fst) hnd'.1
        · exact ih hnd'.2 k h₁ h₂ ht₁ ht₂

/-- With distinct handles a handle determines its key. -/
theorem handle_unique :
    ∀ (p : Pending), handlesNodup p → ∀ k₁ k₂ h, (k₁, h) ∈ p → (k₂, h) ∈ p → k₁ = k₂ := by
  intro p
  induction p with
  | nil => intro _ k₁ k₂ h hm; cases hm
  | cons e tl ih =>
      intro hnd k₁ k₂ h hm₁ hm₂
      obtain ⟨k', h'⟩ := e
      have hnd' := hnd
      simp only [keysNodup, handlesNodup, List.map_cons, List.nodup_cons] at hnd'
      rcases List.mem_cons.mp hm₁ with hh₁ | ht₁
      · rcases List.mem_cons.mp hm₂ with hh₂ | ht₂
        · rw [Prod.mk.injEq] at hh₁ hh₂
          exact hh₁.1.trans hh₂.1.symm
        · rw [Prod.mk.injEq] at hh₁
          exact absurd (hh₁.2 ▸ List.mem_map_of_mem Prod.snd ht₂ :
            h' ∈ tl.map Prod.snd) hnd'.1
      · rcases List.mem_cons.mp hm₂ with hh₂ | ht₂
        · rw [Prod.mk.injEq] at hh₂
          exact absurd (hh₂.2 ▸ List.mem_map_of_mem Prod.snd ht₁ :
            h' ∈ tl.map Prod.snd) hnd'.1
        · exact ih hnd'.2 k₁ k₂ h ht₁ ht₂

/-- A member of a table with distinct keys is found by removal, with its
own handle. -/
theorem lookupRemove_found :
    ∀ (p : Pending) (k : String) (h : Nat), keysNodup p → (k, h) ∈ p →
      ∃ rest, lookupRemove k p = some (h, rest) := by
  intro p
  induction p with
  | nil => intro k h _ hm; cases hm
  | cons e tl ih =>
      intro k h hnd hm
      obtain ⟨k', h'⟩ := e
      have hnd' := hnd
      simp only [keysNodup, handlesNodup, List.map_cons, List.nodup_cons] at hnd'
      by_cases hk : k' = k
      · subst hk
        rcases List.mem_cons.mp hm with hh | ht
        · rw [Prod.mk.injEq] at hh
          exact ⟨tl, by rw [lookupRemove, if_pos rfl, hh.2]⟩
        · exact absurd (List.mem_map_of_mem Prod.fst ht) hnd'.1
      · rcases List.mem_cons.mp hm with hh | ht
        · rw [Prod.mk.injEq] at hh; exact absurd hh.1.symm hk
        · obtain ⟨rest, hrest⟩ := ih k h hnd'.2 ht
          exact ⟨(k', h') :: rest, by rw [lookupRemove, if_neg hk, hrest]⟩

/-- The reader never adds to the pending table: one line leaves it a
sublist of what it was. -/
theorem processLine_pending_sublist (st : ConnState) (l : Line) :
    (processLine st l).pending.Sublist st.pending := by
  cases l with
  | blank => exact List.Sublist.refl _
  | notJson s => exact List.Sublist.refl _
  | readError => exact List.Sublist.refl _
  | json j =>
      simp only [processLine]
      split
      · split
        · rename_i response heq h rest hlr
          exact lookupRemove_sublist _ _ _ _ hlr
        · exact List.Sublist.refl _
      · split
        · exact List.Sublist.refl _
        · exact List.Sublist.refl _

/-- Distinctness of pending keys is preserved by every reader line. -/
theorem processLine_keysNodup (st : ConnState) (l : Line) (hnd : keysNodup st.pending) :
    keysNodup (processLine st l).pending :=
  hnd.sublist ((processLine_pending_sublist st l).map _)

/-- Only a read error ends the reader loop. -/
theorem processLine_alive (st : ConnState) (l : Line) (hl : l.isReadError = false) :
    (processLine st l).readerAlive = st.readerAlive := by
  cases l with
  | blank => rfl
  | notJson s => rfl
  | readError => cases hl
  | json j =>
      simp only [processLine]
      split
      · split <;> rfl
      · split <;> rfl

/-- Deliveries already made survive every later line. -/
theorem processLine_delivered_mono (st : ConnState) (l : Line) (h : Nat)
    (r : JsonRpcResponse) (hmem : (h, r) ∈ st.delivered) :
    (h, r) ∈ (processLine st l).delivered := by
  cases l with
  | blank => exact hmem
  | notJson s => exact hmem
  | readError => exact hmem
  | json j =>
      simp only [processLine]
      split
      · split
        · exact List.mem_append_left _ hmem
        · exact hmem
      · split
        · exact hmem
        · exact hmem

/-- Every delivery a line makes goes to a handle that was pending for
exactly the delivered response's normalized id. -/
theorem processLine_delivered_src (st : ConnState) (l : Line) (h : Nat)
    (r : JsonRpcResponse) (hmem : (h, r) ∈ (processLine st l).delivered) :
    (h, r) ∈ st.delivered ∨ (idClean r.id, h) ∈ st.pending := by
  cases l with
  | blank => exact Or.inl hmem
  | notJson s => exact Or.inl hmem
  | readError => exact Or.inl hmem
  | json j =>
      simp only [processLine] at hmem
      revert hmem
      split
      · rename_i response heq
        split
        · rename_i h₀ rest hlr
          intro hmem
          rcases List.mem_append.mp hmem with hold | hnew
          · exact Or.inl hold
          · have : (h, r) = (h₀, response) := List.mem_singleton.mp hnew
            rw [Prod.mk.injEq] at this
            rw [this.1, this.2]
            exact Or.inr (lookupRemove_mem _ _ _ _ hlr)
        · exact fun hmem => Or.inl hmem
      · split
        · exact fun hmem => Or.inl hmem
        · exact fun hmem => Or.inl hmem

/-- A pending entry is either untouched by a line or receives a delivery
of a response carrying its own id (given distinct keys). -/
theorem processLine_resolve (st : ConnState) (l : Line) (k : String) (h : Nat)
    (hnd : keysNodup st.pending) (hmem : (k, h) ∈ st.pending) :
    (k, h) ∈ (processLine st l).pending ∨
      ∃ r, (h, r) ∈ (processLine st l).delivered ∧ idClean r.id = k := by
  cases l with
  | blank => exact Or.inl hmem
  | notJson s => exact Or.inl hmem
  | readError => exact Or.inl hmem
  | json j =>
      simp only [processLine]
      split
      · rename_i response heq
        split
        · rename_i h₀ rest hlr
          by_cases hk : idClean response.id = k
          · have hmem₀ : (k, h₀) ∈ st.pending := hk ▸ lookupRemove_mem _ _ _ _ hlr
            have : h₀ = h := key_unique st.pending hnd k h₀ h hmem₀ hmem
            subst this
            exact Or.inr ⟨response, List.mem_append_right _ (List.mem_singleton.mpr rfl), hk⟩
          · exact Or.inl (lookupRemove_keeps _ _ _ _ hlr k h hmem (fun he => hk he.symm))
        · exact Or.inl hmem
      · split
        · exact Or.inl hmem
        · exact Or.inl hmem

/-- Deliveries already made survive the rest of the stream. -/
theorem runReader_delivered_mono (lines : List Line) :
    ∀ (st : ConnState) (h : Nat) (r : JsonRpcResponse), (h, r) ∈ st.delivered →
      (h, r) ∈ (runReader st lines).delivered := by
  induction lines with
  | nil => intro st h r hmem; exact hmem
  | cons l rest ih =>
      intro st h r hmem
      rw [runReader]
      split
      · exact ih _ h r (processLine_delivered_mono st l h r hmem)
      · exact processLine_delivered_mono st l h r hmem

/-- Every delivery the reader ever makes goes to a handle that was pending
for exactly the delivered response's normalized id. -/
theorem runReader_delivered_src (lines : List Line) :
    ∀ (st : ConnState) (h : Nat) (r : JsonRpcResponse),
      (h, r) ∈ (runReader st lines).delivered →
      (h, r) ∈ st.delivered ∨ (idClean r.id, h) ∈ st.pending := by
  induction lines with
  | nil => intro st h r hmem; exact Or.inl hmem
  | cons l rest ih =>
      intro st h r hmem
      rw [runReader] at hmem
      revert hmem
      split
      · intro hmem
        rcases ih _ h r hmem with hdel | hpend
        · rcases processLine_delivered_src st l h r hdel with hdel' | hpend'
          · exact Or.inl hdel'
          · exact Or.inr hpend'
        · exact Or.inr (List.Sublist.mem hpend (processLine_pending_sublist st l))
      · intro hmem
        rcases processLine_delivered_src st l h r hmem with hdel' | hpend'
        · exact Or.inl hdel'
        · exact Or.inr hpend'

/-- Over a whole stream, a pending entry either survives to the end (still
registered, never completed) or receives a delivery of a response carrying
its own id. There is no third outcome: in particular the reader's end —
the connection teardown — completes nothing. -/
theorem runReader_resolve (lines : List Line) :
    ∀ (st : ConnState) (k : String) (h : Nat), keysNodup st.pending → (k, h) ∈ st.pending →
      (k, h) ∈ (runReader st lines).pending ∨
        ∃ r, (h, r) ∈ (runReader st lines).delivered ∧ idClean r.id = k := by
  induction lines with
  | nil => intro st k h _ hmem; exact Or.inl hmem
  | cons l rest ih =>
      intro st k h hnd hmem
      rw [runReader]
      split
      · rcases processLine_resolve st l k h hnd hmem with hpend | ⟨r, hdel, hid⟩
        · exact ih _ k h (processLine_keysNodup st l hnd) hpend
        · exact Or.inr ⟨r, runReader_delivered_mono rest _ h r hdel, hid⟩
      · exact processLine_resolve st l k h hnd hmem

/-- On a stream with no read error that contains a well-formed Response
line for a pending id, that pending call is delivered a response with its
id. -/
theorem runReader_delivers (lines : List Line) :
    ∀ (st : ConnState) (k : String) (h : Nat) (j : Json) (r0 : JsonRpcResponse),
      keysNodup st.pending → st.readerAlive = true →
      (∀ l ∈ lines, l.isReadError = false) →
      (k, h) ∈ st.pending → Line.json j ∈ lines →
      parseResponse j = some r0 → idClean r0.id = k →
      ∃ r', (h, r') ∈ (runReader st lines).delivered ∧ idClean r'.id = k := by
  induction lines with
  | nil => intro st k h j r0 _ _ _ _ hline; cases hline
  | cons l rest ih =>
      intro st k h j r0 hnd halive hnoerr hmem hline hpr hid
      have halive' : (processLine st l).readerAlive = true := by
        rw [processLine_alive st l (hnoerr l (List.mem_cons_self _ _))]; exact halive
      rw [runReader, if_pos halive']
      rcases List.mem_cons.mp hline with hl | hrest
      · subst hl
        have hfound := lookupRemove_found st.pending k h hnd hmem
        obtain ⟨tbl, htbl⟩ := hfound
        have hdel : (h, r0) ∈ (processLine st (Line.json j)).delivered := by
          simp only [processLine, hpr, hid, htbl]
          exact List.mem_append_right _ (List.mem_singleton.mpr rfl)
        exact ⟨r0, runReader_delivered_mono rest _ h r0 hdel, hid⟩
      · rcases processLine_resolve st l k h hnd hmem with hpend | ⟨r, hdelr, hidr⟩
        · exact ih _ k h j r0 (processLine_keysNodup st l hnd) halive'
            (fun l' hl' => hnoerr l' (List.mem_cons_of_mem _ hl')) hpend hrest hpr hid
        · exact ⟨r, runReader_delivered_mono rest _ h r hdelr, hidr⟩

/-- While the reader is alive a line is consumed and the loop continues
with the processed state. -/
theorem runReader_cons (st : ConnState) (l : Line) (rest : List Line)
    (halive : (processLine st l).readerAlive = true) :
    runReader st (l :: rest) = runReader (processLine st l) rest := by
  rw [runReader]
  simp only [halive, if_true]

/-- On a one-line stream the reader just processes the line. -/
theorem runReader_single (st : ConnState) (l : Line) :
    runReader st [l] = processLine st l := by
  rw [runReader]
  split <;> rfl

/-- A well-formed Response line for a pending id is delivered to that
pending handle by the line that carries it. -/
theorem processLine_delivers (st : ConnState) (j : Json) (r : JsonRpcResponse)
    (k : String) (h : Nat) (hpr : parseResponse j = some r) (hnd : keysNodup st.pending)
    (hmem : (k, h) ∈ st.pending) (hid : idClean r.id = k) :
    (h, r) ∈ (processLine st (Line.json j)).delivered := by
  obtain ⟨tbl, htbl⟩ := lookupRemove_found st.pending k h hnd hmem
  simp only [processLine, hpr, hid, htbl]
  exact List.mem_append_right _ (List.mem_singleton.mpr rfl)

/-- After removal from a table with distinct keys, no handle remains under
the removed key. -/
theorem lookupRemove_clears (k : String) :
    ∀ (p rest : Pending) (h : Nat), keysNodup p → lookupRemove k p = some (h, rest) →
      ∀ h', (k, h') ∉ rest := by
  intro p
  induction p with
  | nil => intro rest h _ heq; simp [lookupRemove] at heq
  | cons e tl ih =>
      intro rest h hnd heq h' hmem
      obtain ⟨k', hv⟩ := e
      have hnd' := hnd
      simp only [keysNodup, handlesNodup, List.map_cons, List.nodup_cons] at hnd'
      by_cases hk : k' = k
      · rw [lookupRemove, if_pos hk] at heq
        have hrest : tl = rest := congrArg Prod.snd (Option.some.inj heq)
        subst hrest
        exact hnd'.1 (hk ▸ List.mem_map_of_mem Prod.fst hmem)
      · rw [lookupRemove, if_neg hk] at heq
        cases hrec : lookupRemove k tl with
        | none => rw [hrec] at heq; cases heq
        | some pr =>
            obtain ⟨h'', rest'⟩ := pr
            rw [hrec] at heq
            have hrest : (k', hv) :: rest' = rest := congrArg Prod.snd (Option.some.inj heq)
            subst hrest
            rcases List.mem_cons.mp hmem with hhd | htl
            · exact hk (congrArg Prod.fst hhd).symm
            · exact ih _ _ hnd'.2 hrec h' htl

/-- HashMap::insert keeps the keys distinct. -/
theorem insertPending_keysNodup (k : String) (h : Nat) (p : Pending) (hnd : keysNodup p) :
    keysNodup (insertPending k h p) := by
  simp only [insertPending, keysNodup, List.map_append]
  refine List.Nodup.append (hnd.sublist ((List.filter_sublist _).map _)) (by simp) ?_
  intro a ha hb
  simp only [List.map_cons, List.map_nil, List.mem_singleton] at hb
  obtain ⟨e, he, hfst⟩ := List.mem_map.mp ha
  have hne := (List.mem_filter.mp he).2
  simp only [decide_not, Bool.not_eq_true', decide_eq_false_iff_not] at hne
  exact hne (hfst.trans hb)

/-- The reader loop leaves the counter alone. -/
theorem processLine_counter (st : ConnState) (l : Line) :
    (processLine st l).counter = st.counter := by
  cases l with
  | blank => rfl
  | notJson s => rfl
  | readError => rfl
  | json j =>
      simp only [processLine]
      split
      · split <;> rfl
      · split <;> rfl

/-- The reader loop leaves the ghost list of issued ids alone. -/
theorem processLine_issued (st : ConnState) (l : Line) :
    (processLine st l).issued = st.issued := by
  cases l with
  | blank => rfl
  | notJson s => rfl
  | readError => rfl
  | json j =>
      simp only [processLine]
      split
      · split <;> rfl
      · split <;> rfl

/-- send_request preserves the connection invariant. -/
theorem sendStep_inv (st : ConnState) (m : String) (p : Option Json) (hinv : ConnInv st) :
    ConnInv (sendStep st m p) := by
  obtain ⟨hc, hi, hk⟩ := hinv
  refine ⟨?_, ?_, insertPending_keysNodup _ _ _ hk⟩
  · simp only [sendStep, List.length_append, List.length_cons, List.length_nil]
    omega
  · simp only [sendStep, List.length_append, List.length_cons, List.length_nil, Nat.zero_add]
    rw [List.range'_concat]
    nth_rewrite 1 [hi]
    rw [hc]
    have harith : 1 + 1 * st.issued.length = st.issued.length + 1 := by omega
    rw [harith]

/-- One reader line preserves the connection invariant. -/
theorem processLine_inv (st : ConnState) (l : Line) (hinv : ConnInv st) :
    ConnInv (processLine st l) := by
  obtain ⟨hc, hi, hk⟩ := hinv
  exact ⟨by rw [processLine_counter, processLine_issued]; exact hc,
    by rw [processLine_issued]; exact hi,
    processLine_keysNodup st l hk⟩

/-- Every interleaving step preserves the connection invariant. -/
theorem step_inv (st : ConnState) (a : Act) (hinv : ConnInv st) : ConnInv (step st a) := by
  cases a with
  | send m p => exact sendStep_inv st m p hinv
  | line l =>
      simp only [step]
      split
      · exact processLine_inv st l hinv
      · exact hinv

/-- Every interleaved execution preserves the connection invariant. -/
theorem run_inv (acts : List Act) : ∀ st : ConnState, ConnInv st → ConnInv (run st acts) := by
  induction acts with
  | nil => intro st hinv; exact hinv
  | cons a rest ih => intro st hinv; exact ih (step st a) (step_inv st a hinv)

/-!
Claim theorems.
-/

/-- Claim C1, counterexample. The claim says that when the connection is
torn down while a call is outstanding, the pending call fails with a
ConnectionClosed error and its completion handle is removed from the
Pending-Call Table. In the code the reader task ends when the child's
output stream closes (client.rs lines 62-103) without touching
pending_requests: the oneshot senders stay alive inside the map still held
by the AcpClient, so no pending rx.await can resolve. Concretely: with
call id 1 outstanding (handle 0 registered) and the output stream already
closed (empty remaining stream), the handle is still in the table and no
completion of any kind was delivered — the call is left suspended, not
failed. -/
theorem thm_C1_counterexample :
    (runReader { initState with pending := [("1", 0)] } []).pending = [("1", 0)]
    ∧ (runReader { initState with pending := [("1", 0)] } []).delivered = [] :=
  ⟨rfl, rfl⟩

/-- Claim C1, amended: tearing the connection down does not fail pending
calls. A call pending at any point either survives to the reader's end —
its completion handle still registered in the Pending-Call Table, the call
still suspended — or it was delivered a Response carrying its own id
beforehand. There is no failure path: the reader's end performs no
operation on the table, and the code constructs no ConnectionClosed
completion. -/
theorem thm_C1_amended (st : ConnState) (lines : List Line) (k : String) (h : Nat)
    (hnd : keysNodup st.pending) (hmem : (k, h) ∈ st.pending) :
    (k, h) ∈ (runReader st lines).pending ∨
      ∃ r, (h, r) ∈ (runReader st lines).delivered ∧ idClean r.id = k :=
  runReader_resolve lines st k h hnd hmem

/-- Witness for the amended claim C1 at a concrete input. -/
theorem thm_C1_witness :
    keysNodup [("1", 0)]
    ∧ (("1", 0) ∈ (runReader { initState with pending := [("1", 0)] } []).pending
        ∨ ∃ r, (0, r) ∈ (runReader { initState with pending := [("1", 0)] } []).delivered
            ∧ idClean r.id = "1") :=
  ⟨by decide, thm_C1_amended { initState with pending := [("1", 0)] } [] "1" 0
    (by decide) (by decide)⟩

/-- Claim C2: call/response correlation. On any connection state whose
pending table has distinct ids and distinct completion handles and no
deliveries yet, for every pending call (id k, handle h): any response ever
delivered to h carries normalized id k (so responses for other calls,
arriving in any order, can never resolve this call), and if the stream is
free of read errors and contains a well-formed Response line whose
normalized id is k, then h is delivered a response with id k. -/
theorem thm_C2 (st : ConnState) (lines : List Line) (k : String) (h : Nat)
    (hdel : st.delivered = []) (hkeys : keysNodup st.pending)
    (hhandles : handlesNodup st.pending) (hmem : (k, h) ∈ st.pending) :
    (∀ r, (h, r) ∈ (runReader st lines).delivered → idClean r.id = k)
    ∧ (st.readerAlive = true → (∀ l ∈ lines, l.isReadError = false) →
        ∀ j r0, Line.json j ∈ lines → parseResponse j = some r0 → idClean r0.id = k →
        ∃ r', (h, r') ∈ (runReader st lines).delivered ∧ idClean r'.id = k) := by
  constructor
  · intro r hr
    rcases runReader_delivered_src lines st h r hr with hdel' | hpend
    · rw [hdel] at hdel'; cases hdel'
    · exact handle_unique st.pending hhandles _ k h hpend hmem
  · intro halive hnoerr j r0 hline hpr hid
    exact runReader_delivers lines st k h j r0 hkeys halive hnoerr hmem hline hpr hid

/-- Witness for claim C2 at a concrete out-of-order input: calls with ids
1 and 2 are outstanding, the responses arrive in the reverse order, and
each handle receives exactly the response with its own id. -/
theorem thm_C2_witness :
    (runReader { initState with pending := [("1", 10), ("2", 20)] }
        [Line.json (Json.obj [("jsonrpc", Json.str "2.0"), ("id", Json.num 2),
            ("result", Json.str "b")]),
         Line.json (Json.obj [("jsonrpc", Json.str "2.0"), ("id", Json.num 1),
            ("result", Json.str "a")])]).delivered
      = [(20, ⟨"2.0", Json.num 2, some (Json.str "b"), none⟩),
         (10, ⟨"2.0", Json.num 1, some (Json.str "a"), none⟩)]
    ∧ idClean (Json.num 1) = "1"
    ∧ (∃ r', (10, r') ∈ (runReader { initState with pending := [("1", 10), ("2", 20)] }
          [Line.json (Json.obj [("jsonrpc", Json.str "2.0"), ("id", Json.num 2),
              ("result", Json.str "b")]),
           Line.json (Json.obj [("jsonrpc", Json.str "2.0"), ("id", Json.num 1),
              ("result", Json.str "a")])]).delivered ∧ idClean r'.id = "1") :=
  ⟨rfl, rfl,
    (thm_C2 { initState with pending := [("1", 10), ("2", 20)] }
        [Line.json (Json.obj [("jsonrpc", Json.str "2.0"), ("id", Json.num 2),
            ("result", Json.str "b")]),
         Line.json (Json.obj [("jsonrpc", Json.str "2.0"), ("id", Json.num 1),
            ("result", Json.str "a")])] "1" 10
        rfl (by decide) (by decide) (by decide)).2
      rfl (by decide)
      (Json.obj [("jsonrpc", Json.str "2.0"), ("id", Json.num 1), ("result", Json.str "a")])
      ⟨"2.0", Json.num 1, some (Json.str "a"), none⟩
      (List.mem_cons_of_mem _ (List.mem_cons_self _ _)) rfl rfl⟩

/-- Claim C3, counterexample. The claim says every inbound line with a
method field whose id is absent or unmatched is pushed onto the
notification fan-out channel. But serde ignores unknown fields, so a line
that has BOTH a method and an id parses as a JsonRpcResponse first
(client.rs line 71); with the id unmatched it is warned about and dropped
(client.rs line 85), never reaching the notification channel. Concretely,
the line with method "ping" and unmatched id 99 produces no notification
and one unmatched-response drop. -/
theorem thm_C3_counterexample :
    (processLine initState (Line.json (Json.obj
        [("jsonrpc", Json.str "2.0"), ("method", Json.str "ping"),
         ("id", Json.num 99)]))).notifications = []
    ∧ (processLine initState (Line.json (Json.obj
        [("jsonrpc", Json.str "2.0"), ("method", Json.str "ping"),
         ("id", Json.num 99)]))).unmatched
      = [⟨"2.0", Json.num 99, none, none⟩] :=
  ⟨rfl, rfl⟩

/-- Claim C3, amended: what decides a line's fate is not whether the id
corresponds to an issued call but whether the line fits the Response
shape. A line carrying a method and NO id field at all (with a string
jsonrpc field, as serde requires) fails the Response shape and is pushed
onto the notification fan-out channel. A line that fits the Response shape
— which any line with a method, an id field, and an error field that is
absent, null, or a well-formed error object does, since serde ignores the
unknown method field — is handled on the reply path, matched or
warn-dropped, never pushed as a notification. A method-carrying line that
fails the Response shape for any other reason (for example a malformed
error field) falls through to the Request shape and is pushed as a
notification, id or not. -/
theorem thm_C3_amended (st : ConnState) (j : Json) (v m : String)
    (hv : j.getField "jsonrpc" = some (Json.str v))
    (hm : j.getField "method" = some (Json.str m)) :
    (j.getField "id" = none →
      processLine st (Line.json j)
        = { st with notifications := st.notifications ++ [⟨v, m, optField j "params", none⟩] })
    ∧ (∀ r, parseResponse j = some r →
        (processLine st (Line.json j)).notifications = st.notifications)
    ∧ (parseResponse j = none →
      processLine st (Line.json j)
        = { st with notifications :=
              st.notifications ++ [⟨v, m, optField j "params", optField j "id"⟩] }) := by
  refine ⟨?_, ?_, ?_⟩
  · intro hid
    have hpr : parseResponse j = none := by
      simp only [parseResponse, hv, hid]
    have hido : optField j "id" = none := by
      simp only [optField, hid]
    have hrq : parseRequest j = some ⟨v, m, optField j "params", none⟩ := by
      simp only [parseRequest, hv, hm, hido]
    simp only [processLine, hpr, hrq]
  · intro r hpr
    simp only [processLine, hpr]
    split
    · rfl
    · rfl
  · intro hpr
    have hrq : parseRequest j = some ⟨v, m, optField j "params", optField j "id"⟩ := by
      simp only [parseRequest, hv, hm]
    simp only [processLine, hpr, hrq]

/-- Witness for the amended claim C3 at concrete inputs: a method-only
line becomes a notification; a method-plus-unmatched-id line (well-formed
Response shape) leaves the notification channel untouched; a
method-plus-id line with a malformed error field fails the Response shape
and becomes a notification despite its id. -/
theorem thm_C3_witness :
    (Json.obj [("jsonrpc", Json.str "2.0"), ("method", Json.str "hello")]).getField "id" = none
    ∧ processLine initState (Line.json (Json.obj
        [("jsonrpc", Json.str "2.0"), ("method", Json.str "hello")]))
      = { initState with notifications := [⟨"2.0", "hello", none, none⟩] }
    ∧ parseResponse (Json.obj [("jsonrpc", Json.str "2.0"), ("method", Json.str "hello"),
        ("id", Json.num 5)]) = some ⟨"2.0", Json.num 5, none, none⟩
    ∧ (processLine initState (Line.json (Json.obj
        [("jsonrpc", Json.str "2.0"), ("method", Json.str "hello"),
         ("id", Json.num 5)]))).notifications = initState.notifications
    ∧ parseResponse (Json.obj [("jsonrpc", Json.str "2.0"), ("method", Json.str "hello"),
        ("id", Json.num 5), ("error", Json.str "oops")]) = none
    ∧ processLine initState (Line.json (Json.obj
        [("jsonrpc", Json.str "2.0"), ("method", Json.str "hello"),
         ("id", Json.num 5), ("error", Json.str "oops")]))
      = { initState with notifications := [⟨"2.0", "hello", none, some (Json.num 5)⟩] } :=
  ⟨rfl,
    (thm_C3_amended initState
      (Json.obj [("jsonrpc", Json.str "2.0"), ("method", Json.str "hello")])
      "2.0" "hello" rfl rfl).1 rfl,
    rfl,
    (thm_C3_amended initState
      (Json.obj [("jsonrpc", Json.str "2.0"), ("method", Json.str "hello"),
        ("id", Json.num 5)])
      "2.0" "hello" rfl rfl).2.1 ⟨"2.0", Json.num 5, none, none⟩ rfl,
    rfl,
    (thm_C3_amended initState
      (Json.obj [("jsonrpc", Json.str "2.0"), ("method", Json.str "hello"),
        ("id", Json.num 5), ("error", Json.str "oops")])
      "2.0" "hello" rfl rfl).2.2 rfl⟩

/-- Claim C7: the reader survives malformed input. A blank line leaves the
state untouched; a non-blank unparsable line only bumps the logged-and-
dropped count and leaves the reader running; and a valid Response line
arriving after a blank and a malformed line is still delivered to its
waiting caller. -/
theorem thm_C7 (st : ConnState) (s : String) (j : Json) (r : JsonRpcResponse)
    (k : String) (h : Nat) (halive : st.readerAlive = true) (hnd : keysNodup st.pending)
    (hpr : parseResponse j = some r) (hid : idClean r.id = k) (hmem : (k, h) ∈ st.pending) :
    processLine st Line.blank = st
    ∧ (processLine st (Line.notJson s)).badLines = st.badLines + 1
    ∧ (processLine st (Line.notJson s)).readerAlive = true
    ∧ (h, r) ∈ (runReader st [Line.blank, Line.notJson s, Line.json j]).delivered := by
  refine ⟨rfl, rfl, halive, ?_⟩
  rw [runReader_cons st Line.blank _ halive]
  show (h, r) ∈ (runReader st [Line.notJson s, Line.json j]).delivered
  rw [runReader_cons st (Line.notJson s) _ halive, runReader_single]
  exact processLine_delivers _ j r k h hpr hnd hmem hid

/-- Witness for claim C7 at a concrete input: a garbage line between a
blank line and the response for pending id 7. -/
theorem thm_C7_witness :
    keysNodup [("7", 3)]
    ∧ (3, (⟨"2.0", Json.num 7, some (Json.str "ok"), none⟩ : JsonRpcResponse))
        ∈ (runReader { initState with pending := [("7", 3)] }
            [Line.blank, Line.notJson "not json at all",
             Line.json (Json.obj [("jsonrpc", Json.str "2.0"), ("id", Json.num 7),
               ("result", Json.str "ok")])]).delivered :=
  ⟨by decide,
    (thm_C7 { initState with pending := [("7", 3)] } "not json at all"
      (Json.obj [("jsonrpc", Json.str "2.0"), ("id", Json.num 7),
        ("result", Json.str "ok")])
      ⟨"2.0", Json.num 7, some (Json.str "ok"), none⟩ "7" 3
      rfl (by decide) rfl rfl (by decide)).2.2.2⟩

/-- Claim C8: id allocation and the Pending-Call Table. Over every
interleaved execution from a fresh connection, the ids handed out by
send_request are exactly 1, 2, 3, ... in order (monotonically increasing
from 1, never reused), the pending table holds at most one completion
handle per id, and once a Response line for an id is processed by a live
reader no handle remains registered under that id. -/
theorem thm_C8 (acts : List Act) :
    (run initState acts).issued = List.range' 1 (run initState acts).issued.length
    ∧ (run initState acts).issued.Nodup
    ∧ keysNodup (run initState acts).pending
    ∧ (∀ j r, parseResponse j = some r → (run initState acts).readerAlive = true →
        ∀ h', (idClean r.id, h')
          ∉ (step (run initState acts) (Act.line (Line.json j))).pending) := by
  have hinv : ConnInv (run initState acts) :=
    run_inv acts initState ⟨rfl, rfl, List.nodup_nil⟩
  obtain ⟨hc, hi, hk⟩ := hinv
  refine ⟨hi, ?_, hk, ?_⟩
  · rw [hi]; exact List.nodup_range' 1 _ 1 (by norm_num)
  · intro j r hpr halive h' hmem
    rw [step, if_pos halive] at hmem
    revert hmem
    simp only [processLine, hpr]
    split
    · rename_i h₀ rest hlr
      exact lookupRemove_clears _ _ _ _ hk hlr h'
    · rename_i hlr
      exact lookupRemove_none _ _ hlr h'

/-- Witness for claim C8 at a concrete input: two calls issued, ids 1 and
2, then the response for id 1 processed — id 1 is no longer pending. -/
theorem thm_C8_witness :
    (run initState [Act.send "session/new" none, Act.send "session/prompt" none]).issued = [1, 2]
    ∧ ("1", 0) ∉ (step (run initState [Act.send "session/new" none,
          Act.send "session/prompt" none])
        (Act.line (Line.json (Json.obj [("jsonrpc", Json.str "2.0"), ("id", Json.num 1),
          ("result", Json.str "done")])))).pending :=
  ⟨rfl,
    (thm_C8 [Act.send "session/new" none, Act.send "session/prompt" none]).2.2.2
      (Json.obj [("jsonrpc", Json.str "2.0"), ("id", Json.num 1),
        ("result", Json.str "done")])
      ⟨"2.0", Json.num 1, some (Json.str "done"), none⟩ rfl rfl 0⟩

/-- Claim C4, counterexample. The claim says the published reply content
equals "[" + project name + "]" + one newline + the accumulated text with
a (single) leading newline stripped if present. The code uses
trim_start_matches('\n') (bridge.rs line 201), which strips EVERY leading
newline. On accumulated text with two leading newlines the two disagree:
the code publishes "[foo]\nhello" where the claim predicts
"[foo]\n\nhello". -/
theorem thm_C4_counterexample :
    (promptTurn ⟨"agent:foo", "Agent (foo)", Role.agent⟩ "m1" 0 "hi"
        [("project_name", "foo")] (some "sid")
        (Except.ok ⟨"2.0", Json.num 3, none, none⟩) "\n\nhello").events
      = [Event.chatMessage ⟨"m1", none, ⟨"agent:foo", "Agent (foo)", Role.agent⟩,
          "[foo]\nhello", 0, [("project_name", "foo")]⟩]
    ∧ "[foo]\nhello" ≠ specClaimReplyContent "foo" "\n\nhello" :=
  ⟨rfl, by decide⟩

/-- Claim C4, amended: for every successful prompt turn whose accumulated
text is non-empty, the published reply's content equals "[" + the
metadata's project name (default "unknown") + "]" + a single newline + the
accumulated text with ALL leading newlines stripped; the reply carries the
agent identity and the turn's original metadata. -/
theorem thm_C4_amended (agentId : EntityId) (freshId : String) (now : Nat)
    (content : String) (metadata : Metadata) (sid : String) (r : JsonRpcResponse)
    (accumulated : String) (hne : accumulated.isEmpty = false) :
    (promptTurn agentId freshId now content metadata (some sid)
        (Except.ok r) accumulated).events
      = [Event.chatMessage ⟨freshId, none, agentId,
          "[" ++ (metadata.lookup "project_name").getD "unknown" ++ "]" ++ "\n"
            ++ trimStartNewlines accumulated,
          now, metadata⟩] := by
  simp only [promptTurn, hne, Bool.false_eq_true, if_false]

/-- Witness for the amended claim C4 at the spec's own concrete example:
accumulated "\nhello" and project name "foo" give content "[foo]\nhello".
-/
theorem thm_C4_witness :
    ("\nhello" : String).isEmpty = false
    ∧ (promptTurn ⟨"agent:foo", "Agent (foo)", Role.agent⟩ "m1" 0 "hi"
        [("project_name", "foo")] (some "sid")
        (Except.ok ⟨"2.0", Json.num 3, none, none⟩) "\nhello").events
      = [Event.chatMessage ⟨"m1", none, ⟨"agent:foo", "Agent (foo)", Role.agent⟩,
          "[foo]\nhello", 0, [("project_name", "foo")]⟩] :=
  ⟨rfl,
    thm_C4_amended ⟨"agent:foo", "Agent (foo)", Role.agent⟩ "m1" 0 "hi"
      [("project_name", "foo")] "sid" ⟨"2.0", Json.num 3, none, none⟩ "\nhello" rfl⟩

/-- Claim C5: the session-not-ready guard. For every user chat message
processed while the protocol-level session id is still absent, the prompt
turn publishes exactly one error-level system notification with message
"Agent session not ready" and issues no session/prompt call — whatever the
message content, metadata, or anything else. -/
theorem thm_C5 (agentId : EntityId) (freshId : String) (now : Nat)
    (content : String) (metadata : Metadata)
    (callResult : Except String JsonRpcResponse) (accumulated : String) :
    promptTurn agentId freshId now content metadata none callResult accumulated
      = ⟨[Event.systemNotice NotificationLevel.error "Agent session not ready" none], none⟩ :=
  rfl

/-- Claim C9: empty-turn suppression. For every prompt turn whose
session/prompt call succeeds but whose accumulated text is empty, the
bridge publishes nothing at all for that turn (the call itself was
issued). -/
theorem thm_C9 (agentId : EntityId) (freshId : String) (now : Nat)
    (content : String) (metadata : Metadata) (sid : String) (r : JsonRpcResponse) :
    promptTurn agentId freshId now content metadata (some sid) (Except.ok r) ""
      = ⟨[], some (sid, content)⟩ :=
  rfl

/-- Claim C6: the notification-consumption loop appends exactly the
agent_message_chunk texts, in arrival order. Part one: over any received
sequence the accumulator ends as the starting text with the extracted
chunk texts appended left to right in arrival order. Part two and three:
a notification whose method is not session/update, or whose
params.update.sessionUpdate is not the string agent_message_chunk,
contributes nothing. Part four: a session/update notification with
sessionUpdate agent_message_chunk and content text t contributes exactly
t. -/
theorem thm_C6 :
    (∀ (acc : String) (ns : List JsonRpcRequest),
        runNotices acc ns = (ns.filterMap extractChunkText).foldl (fun a t => a ++ t) acc)
    ∧ (∀ n : JsonRpcRequest, n.method ≠ "session/update" → extractChunkText n = none)
    ∧ (∀ n : JsonRpcRequest, updateKind n ≠ some "agent_message_chunk" →
        extractChunkText n = none)
    ∧ (∀ (n : JsonRpcRequest) (t : String), n.method = "session/update" →
        updateKind n = some "agent_message_chunk" → contentText n = some t →
        extractChunkText n = some t) := by
  refine ⟨?_, ?_, ?_, ?_⟩
  · intro acc ns
    induction ns generalizing acc with
    | nil => rfl
    | cons n rest ih =>
        show runNotices (handleNotice acc n) rest = _
        cases hx : extractChunkText n with
        | some t =>
            rw [ih (handleNotice acc n)]
            simp only [List.filterMap_cons, hx, List.foldl_cons, handleNotice]
        | none =>
            rw [ih (handleNotice acc n)]
            simp only [List.filterMap_cons, hx, handleNotice]
  · intro n hm
    simp only [extractChunkText, if_neg hm]
  · intro n hne
    by_cases hm : n.method = "session/update"
    · cases hp : n.params with
      | none => simp [extractChunkText, hm, hp]
      | some params =>
          cases hu : params.getField "update" with
          | none => simp [extractChunkText, hm, hp, hu]
          | some u =>
              cases hsu : u.getField "sessionUpdate" with
              | none => simp [extractChunkText, hm, hp, hu, hsu]
              | some su =>
                  by_cases hs : su.asStr = some "agent_message_chunk"
                  · exact absurd (by simp [updateKind, updatePayload, hp, hu, hsu, hs]) hne
                  · simp [extractChunkText, hm, hp, hu, hsu, hs]
    · simp only [extractChunkText, if_neg hm]
  · intro n t hm hkind hcont
    cases hp : n.params with
    | none => simp [updateKind, updatePayload, hp] at hkind
    | some params =>
        cases hu : params.getField "update" with
        | none => simp [updateKind, updatePayload, hp, hu] at hkind
        | some u =>
            cases hsu : u.getField "sessionUpdate" with
            | none => simp [updateKind, updatePayload, hp, hu, hsu] at hkind
            | some su =>
                have hs : su.asStr = some "agent_message_chunk" := by
                  simpa [updateKind, updatePayload, hp, hu, hsu] using hkind
                cases hc : u.getField "content" with
                | none => simp [contentText, updatePayload, hp, hu, hc] at hcont
                | some c =>
                    have ht : (c.getField "text").bind Json.asStr = some t := by
                      simpa [contentText, updatePayload, hp, hu, hc] using hcont
                    simp [extractChunkText, hm, hp, hu, hsu, hs, hc, ht]

/-- Witness for claim C6 at a concrete input: two chunks around an
unrelated notification accumulate to their concatenation in order, and the
unrelated notification extracts nothing. -/
theorem thm_C6_witness :
    runNotices "" [
        ⟨"2.0", "session/update", some (Json.obj [("update", Json.obj
          [("sessionUpdate", Json.str "agent_message_chunk"),
           ("content", Json.obj [("text", Json.str "Hel")])])]), none⟩,
        ⟨"2.0", "session/other", none, none⟩,
        ⟨"2.0", "session/update", some (Json.obj [("update", Json.obj
          [("sessionUpdate", Json.str "agent_message_chunk"),
           ("content", Json.obj [("text", Json.str "lo")])])]), none⟩]
      = ([
        ⟨"2.0", "session/update", some (Json.obj [("update", Json.obj
          [("sessionUpdate", Json.str "agent_message_chunk"),
           ("content", Json.obj [("text", Json.str "Hel")])])]), none⟩,
        (⟨"2.0", "session/other", none, none⟩ : JsonRpcRequest),
        ⟨"2.0", "session/update", some (Json.obj [("update", Json.obj
          [("sessionUpdate", Json.str "agent_message_chunk"),
           ("content", Json.obj [("text", Json.str "lo")])])]), none⟩].filterMap
        extractChunkText).foldl (fun a t => a ++ t) ""
    ∧ extractChunkText ⟨"2.0", "session/other", none, none⟩ = none :=
  ⟨thm_C6.1 "" _, thm_C6.2.1 ⟨"2.0", "session/other", none, none⟩ (by decide)⟩

/-- Claim C10: the bus-consumption loop. A chat message from a User sender
spawns a prompt turn carrying exactly the message's content and metadata —
whatever the metadata says, in particular with no project_name filtering —
while chat messages from System or Agent senders and all non-chat events
spawn nothing. -/
theorem thm_C10 :
    (∀ msg : ChatMessage, msg.sender.role = Role.user →
        busStep true (Event.chatMessage msg) = some (msg.content, msg.metadata))
    ∧ (∀ (msg : ChatMessage) (b : Bool), msg.sender.role ≠ Role.user →
        busStep b (Event.chatMessage msg) = none)
    ∧ (∀ (b : Bool) (level : NotificationLevel) (message : String) (target : Option EntityId),
        busStep b (Event.systemNotice level message target) = none)
    ∧ (∀ (b : Bool) (jobId payload : String),
        busStep b (Event.scheduledEvent jobId payload) = none)
    ∧ (∀ b : Bool, busStep b Event.configChanged = none) := by
  refine ⟨?_, ?_, fun _ _ _ _ => rfl, fun _ _ _ => rfl, fun _ => rfl⟩
  · intro msg hrole
    simp [busStep, hrole]
  · intro msg b hrole
    simp only [busStep, if_neg hrole]

/-- Witness for claim C10 at concrete inputs: a user message whose
metadata names a foreign project still spawns a turn; an agent message
spawns none. -/
theorem thm_C10_witness :
    busStep true (Event.chatMessage ⟨"id1", none, ⟨"telegram:9", "alice", Role.user⟩,
        "hello", 0, [("project_name", "some_other_project"), ("chat_id", "42")]⟩)
      = some ("hello", [("project_name", "some_other_project"), ("chat_id", "42")])
    ∧ busStep true (Event.chatMessage ⟨"id2", none, ⟨"agent:foo", "Agent (foo)", Role.agent⟩,
        "reply", 0, []⟩) = none :=
  ⟨thm_C10.1 ⟨"id1", none, ⟨"telegram:9", "alice", Role.user⟩,
      "hello", 0, [("project_name", "some_other_project"), ("chat_id", "42")]⟩ rfl,
    thm_C10.2.1 ⟨"id2", none, ⟨"agent:foo", "Agent (foo)", Role.agent⟩,
      "reply", 0, []⟩ true (by decide)⟩

end Thalassa
